import Mathlib

/-!
Shallow embedding of the Anbar single-node S3-style object store
(`src/drivers/db.rs`, `src/drivers/s3.rs`, `src/drivers/web_server.rs`,
`src/interactors/storage.rs`, `src/entities/*.rs`, `src/adapters/*.rs`).

Conventions of the embedding:
* sled trees (string-keyed, insert overwrites, remove is total) are modelled
  as association lists with `treeInsert` / `treeGet` / `treeRemove`;
* a Rust `panic!` / `.unwrap()` on a missing value is modelled by `Option`:
  `none` means the request aborts with no result and no HTTP response;
* the external filesystem (spec section 6) is a set of directory paths plus a
  map from file paths to byte lists; a create-or-truncate open requires the
  containing bucket directory to exist;
* wall-clock time (`chrono::Local::now()`) is a natural-number counter held in
  the state; every state-mutating operation that reads the clock advances it;
* the HMAC-SHA256, SHA-256 and MD5 primitives come from external crates, so
  they are passed as abstract function parameters; the lowercase-hex rendering
  of a digest (Rust `format!` with the lower-hex specifier) is concrete.
-/

namespace Anbar

abbrev Bytes := List Nat

/-- Lowercase hexadecimal digit for a value below 16. -/
def hexDigitChar (n : Nat) : Char :=
  if n < 10 then Char.ofNat (48 + n) else Char.ofNat (87 + n)

/-- Two-digit lowercase hex rendering of one byte. -/
def hexOfByte (b : Nat) : String :=
  String.mk [hexDigitChar (b / 16 % 16), hexDigitChar (b % 16)]

/-- Lowercase-hex rendering of a byte string, as Rust lower-hex formatting of
a digest prints it: each byte as two lowercase hex digits, concatenated. -/
def hexOfBytes (bs : Bytes) : String :=
  String.join (bs.map hexOfByte)

/-- Byte view of a string (Rust `str::as_bytes`): the scalar value of each
character, which coincides with the UTF-8 bytes on the ASCII strings the
protocol exchanges. -/
def strBytes (s : String) : Bytes :=
  s.data.map (fun c => c.toNat)

/-- Lookup in a sled tree modelled as an association list. -/
def treeGet {α : Type} (t : List (String × α)) (k : String) : Option α :=
  (t.find? (fun p => p.1 == k)).map Prod.snd

/-- sled `Tree::insert`: overwrite the value when the key is present,
append the binding otherwise. -/
def treeInsert {α : Type} (t : List (String × α)) (k : String) (v : α) : List (String × α) :=
  if t.any (fun p => p.1 == k) then
    t.map (fun p => if p.1 == k then (k, v) else p)
  else t ++ [(k, v)]

/-- sled `Tree::remove`: drop the binding for the key (total, no error when
the key is absent). -/
def treeRemove {α : Type} (t : List (String × α)) (k : String) : List (String × α) :=
  t.filter (fun p => p.1 != k)

/-- Entity `User` (`src/entities/user.rs`). -/
structure User where
  id : String
  display_name : String
  access_key : String
  secret_access_key : String
deriving Repr, DecidableEq

/-- Entity `Bucket` (`src/entities/bucket.rs`); `creation_date` is the
clock-counter model of a `DateTime<Local>`. -/
structure Bucket where
  name : String
  owner_id : String
  object_count : Int
  size : Int
  creation_date : Nat
deriving Repr, DecidableEq

/-- Entity `Object` (`src/entities/object.rs`). -/
structure Object where
  key : String
  bucket : String
  owner_id : String
  size : Int
  last_modified : Nat
deriving Repr, DecidableEq

/-- The `PartialEq`/`Hash` instance of `Object`: equality by (bucket, key)
only. -/
def objEq (a b : Object) : Bool :=
  a.bucket == b.bucket && a.key == b.key

/-- The five sled trees of `Db` (`src/drivers/db.rs`). -/
structure Db where
  access_key_to_user_id : List (String × String)
  user_id_to_user : List (String × User)
  user_id_to_bucket : List (String × List Bucket)
  bucket_name_to_bucket : List (String × Bucket)
  bucket_name_to_objects : List (String × List Object)
deriving Repr, DecidableEq

/-- Fresh database: all five trees empty. -/
def Db.empty : Db := ⟨[], [], [], [], []⟩

/-- Model of `Db::get_user_by_access_key`: two chained lookups, `None` when either
misses. -/
def Db.get_user_by_access_key (db : Db) (access_key : String) : Option User :=
  (treeGet db.access_key_to_user_id access_key).bind fun user_id =>
    treeGet db.user_id_to_user user_id

/-- Model of `Db::create_user`: panics (`none`) when the user id is already present;
otherwise writes the user row, seeds the empty bucket list, and writes the
access-key index. Note: only the user id is checked, not the access key. -/
def Db.create_user (db : Db) (user : User) : Option Db :=
  if (treeGet db.user_id_to_user user.id).isSome then none
  else some { db with
    user_id_to_user := treeInsert db.user_id_to_user user.id user,
    user_id_to_bucket := treeInsert db.user_id_to_bucket user.id [],
    access_key_to_user_id := treeInsert db.access_key_to_user_id user.access_key user.id }

/-- Model of `Db::create_bucket`: panics (`none`) when the bucket name is already
present — before any write. Otherwise inserts the bucket row, then reads the
owner's bucket list (unwrap: `none` when the owner has no row) and appends. -/
def Db.create_bucket (db : Db) (bucket : Bucket) : Option Db :=
  if (treeGet db.bucket_name_to_bucket bucket.name).isSome then none
  else
    let db1 := { db with
      bucket_name_to_bucket := treeInsert db.bucket_name_to_bucket bucket.name bucket }
    (treeGet db1.user_id_to_bucket bucket.owner_id).map fun user_buckets =>
      { db1 with
        user_id_to_bucket := treeInsert db1.user_id_to_bucket bucket.owner_id (user_buckets ++ [bucket]) }

/-- Model of `Db::get_buckets_by_user_id`: unwrap on the owner's row (`none` when
absent). -/
def Db.get_buckets_by_user_id (db : Db) (user_id : String) : Option (List Bucket) :=
  treeGet db.user_id_to_bucket user_id

/-- Model of `Db::get_objects_by_bucket_name`: missing entry defaults to the empty
set (`unwrap_or` of the encoded empty list). -/
def Db.get_objects_by_bucket_name (db : Db) (bucket_name : String) : List Object :=
  (treeGet db.bucket_name_to_objects bucket_name).getD []

/-- Rust `HashSet::insert` under the (bucket, key) equality of `Object`:
when an equal element is already present the set is UNCHANGED (the old
element, with its old metadata, is retained); otherwise the element is
added. -/
def hashSetInsert (objects : List Object) (object : Object) : List Object :=
  if objects.any (fun o => objEq o object) then objects else objects ++ [object]

/-- Model of `Db::create_object`: `HashSet::insert` into the bucket's object set,
then write the set back. -/
def Db.create_object (db : Db) (object : Object) : Db :=
  let objects := hashSetInsert (db.get_objects_by_bucket_name object.bucket) object
  { db with bucket_name_to_objects := treeInsert db.bucket_name_to_objects object.bucket objects }

/-- Model of `Db::get_object`: find by key in the bucket's object set. -/
def Db.get_object (db : Db) (bucket : String) (object : String) : Option Object :=
  (db.get_objects_by_bucket_name bucket).find? (fun o => o.key == object)

/-- Model of `Db::delete_bucket`: remove both the bucket row and the object-set row. -/
def Db.delete_bucket (db : Db) (bucket : String) : Db :=
  { db with
    bucket_name_to_bucket := treeRemove db.bucket_name_to_bucket bucket,
    bucket_name_to_objects := treeRemove db.bucket_name_to_objects bucket }

/-- Model of `Db::delete_object`: `retain(|o| o.key == object)` — as written, the set
is filtered down to the elements whose key EQUALS the argument, i.e. the
matching object is kept and every other object of the bucket is dropped. -/
def Db.delete_object (db : Db) (bucket : String) (object : String) : Db :=
  let objects := (db.get_objects_by_bucket_name bucket).filter (fun o => o.key == object)
  { db with bucket_name_to_objects := treeInsert db.bucket_name_to_objects bucket objects }

/-- Model of the external filesystem (spec section 6): existing directory
paths and a map from file paths to contents. -/
structure Fs where
  dirs : List String
  files : List (String × Bytes)
deriving Repr, DecidableEq

/-- Filesystem with no directories and no files. -/
def Fs.empty : Fs := ⟨[], []⟩

/-- Model of `Path::join` of one component. -/
def pathJoin (a b : String) : String := a ++ "/" ++ b

/-- Read a whole file; `none` when absent (`File::open` failure). -/
def Fs.readFile (fs : Fs) (path : String) : Option Bytes :=
  treeGet fs.files path

/-- Model of `Storage` (`src/interactors/storage.rs`) together with the ambient world
it mutates: the external filesystem and the wall clock. -/
structure Storage where
  base_path : String
  db : Db
  fs : Fs
  time : Nat
deriving Repr, DecidableEq

/-- Model of `Storage::new_user`: build the `User` record and `Db::create_user` it. -/
def Storage.new_user (st : Storage) (id display_name access_key secret_access_key : String) :
    Option Storage :=
  (st.db.create_user
    { id := id, display_name := display_name, access_key := access_key,
      secret_access_key := secret_access_key }).map
    fun db => { st with db := db }

/-- Model of `Storage::find_user`: lookup by access key. -/
def Storage.find_user (st : Storage) (id : String) : Option User :=
  st.db.get_user_by_access_key id

/-- Model of `Storage::create_bucket`: create the directory `base_path/<name>` if
absent, then `Db::create_bucket` a bucket with zero counters and the current
clock as creation date. -/
def Storage.create_bucket (st : Storage) (owner_id name : String) : Option Storage :=
  let path := pathJoin st.base_path name
  let fs := if st.fs.dirs.contains path then st.fs
            else { st.fs with dirs := st.fs.dirs ++ [path] }
  let bucket : Bucket :=
    { name := name, owner_id := owner_id, object_count := 0, size := 0,
      creation_date := st.time }
  (st.db.create_bucket bucket).map fun db =>
    { st with db := db, fs := fs, time := st.time + 1 }

/-- Model of `Storage::list_buckets` (unwrap inside `Db::get_buckets_by_user_id`). -/
def Storage.list_buckets (st : Storage) (owner_id : String) : Option (List Bucket) :=
  st.db.get_buckets_by_user_id owner_id

/-- Model of `Storage::list_objects`. -/
def Storage.list_objects (st : Storage) (bucket : String) : List Object :=
  st.db.get_objects_by_bucket_name bucket

/-- Model of `Storage::put_object`: open `base_path/<bucket>/<object>` with
create-or-truncate (requires the bucket directory; otherwise the unwrap
panics), write the body, then `Db::create_object` an entry with
`size = len(body)` and the current clock as `last_modified`. -/
def Storage.put_object (st : Storage) (user : User) (bucket object : String) (body : Bytes) :
    Option Storage :=
  if st.fs.dirs.contains (pathJoin st.base_path bucket) then
    let path := pathJoin (pathJoin st.base_path bucket) object
    let obj : Object :=
      { key := object, bucket := bucket, owner_id := user.id,
        size := (body.length : Int), last_modified := st.time }
    some { st with
      fs := { st.fs with files := treeInsert st.fs.files path body },
      db := st.db.create_object obj,
      time := st.time + 1 }
  else none

/-- Model of `Storage::get_object`: open and read the file (unwrap: `none` when the
file is absent), then `Db::get_object` with unwrap (`none` when the catalog
entry is absent). -/
def Storage.get_object (st : Storage) (bucket object : String) : Option (Object × Bytes) :=
  (st.fs.readFile (pathJoin (pathJoin st.base_path bucket) object)).bind fun buf =>
    (st.db.get_object bucket object).map fun o => (o, buf)

/-- Model of `Storage::delete_bucket`: `remove_dir_all` (unwrap: `none` when the
directory is absent; removes the directory and every file under it), then
`Db::delete_bucket`. -/
def Storage.delete_bucket (st : Storage) (bucket : String) : Option Storage :=
  let path := pathJoin st.base_path bucket
  if st.fs.dirs.contains path then
    some { st with
      fs := { dirs := st.fs.dirs.filter (fun d => d != path),
              files := st.fs.files.filter (fun p => !((path ++ "/").data.isPrefixOf p.1.data)) },
      db := st.db.delete_bucket bucket }
  else none

/-- Model of `Storage::delete_object`: `remove_file` (unwrap: `none` when the file is
absent), then `Db::delete_object`. -/
def Storage.delete_object (st : Storage) (bucket object : String) : Option Storage :=
  let path := pathJoin (pathJoin st.base_path bucket) object
  if (st.fs.readFile path).isSome then
    some { st with
      fs := { st.fs with files := st.fs.files.filter (fun p => p.1 != path) },
      db := st.db.delete_object bucket object }
  else none

/-- Lowercase an ASCII letter; identity elsewhere. -/
def lowerAsciiChar (c : Char) : Char :=
  if 'A' ≤ c ∧ c ≤ 'Z' then Char.ofNat (c.toNat + 32) else c

/-- ASCII lowercasing of a string (header names are ASCII). -/
def lowerAscii (s : String) : String :=
  String.mk (s.data.map lowerAsciiChar)

/-- Rust `str::trim`: drop whitespace from both ends. -/
def trimChars (s : String) : String :=
  String.mk (((s.data.dropWhile Char.isWhitespace).reverse.dropWhile
    Char.isWhitespace).reverse)

/-- Rust `str::split` on a semicolon, keeping empty pieces. -/
def splitSemiAux : List Char → List Char → List String
  | [], acc => [String.mk acc.reverse]
  | c :: cs, acc =>
    if c = ';' then String.mk acc.reverse :: splitSemiAux cs []
    else splitSemiAux cs (c :: acc)

/-- Split a string at every semicolon. -/
def splitSemi (s : String) : List String :=
  splitSemiAux s.data []

/-- Parsed `Authorization` header (`Auth` in `src/drivers/s3.rs`). -/
structure Auth where
  access_key : String
  date : String
  region : String
  signature : String
  signed_headers : List String
deriving Repr, DecidableEq

/-- Word character of the SigV4 header regex (ASCII reading of a regex word
character): letter, digit or underscore. -/
def isWordChar (c : Char) : Bool :=
  c.isAlphanum || c == '_'

/-- Lowercase hex digit, the character class of the Signature field. -/
def isHexLower (c : Char) : Bool :=
  c.isDigit || ('a' ≤ c && c ≤ 'f')

/-- Expect a literal character sequence; return the rest. -/
def expectChars (pat cs : List Char) : Option (List Char) :=
  if cs.take pat.length == pat then some (cs.drop pat.length) else none

/-- Take one or more characters of a class (a greedy regex plus on a class
that excludes the following delimiter never backtracks). -/
def takeClass1 (p : Char → Bool) (cs : List Char) : Option (String × List Char) :=
  let tk := cs.takeWhile p
  if tk.isEmpty then none else some (String.mk tk, cs.drop tk.length)

/-- Model of `Auth::parse`: the anchored regex
AWS4-HMAC-SHA256\s Credential=w+ / w+ / [w-]+ /s3/aws4_request, \s*
SignedHeaders=[w-;]+ , \s* Signature=[0-9a-f]+ then end of input; the
captures unwrap is a panic (`none`) when the header does not match. The
SignedHeaders capture is split on semicolons. -/
def Auth.parse (header : String) : Option Auth := do
  let cs := header.data
  let cs ← expectChars ("AWS4-HMAC-SHA256".data) cs
  let cs ← (match cs with
    | c :: rest => if c.isWhitespace then some rest else none
    | [] => none)
  let cs ← expectChars ("Credential=".data) cs
  let (access_key, cs) ← takeClass1 isWordChar cs
  let cs ← expectChars ("/".data) cs
  let (date, cs) ← takeClass1 isWordChar cs
  let cs ← expectChars ("/".data) cs
  let (region, cs) ← takeClass1 (fun c => isWordChar c || c == '-') cs
  let cs ← expectChars ("/s3/aws4_request,".data) cs
  let cs := cs.dropWhile Char.isWhitespace
  let cs ← expectChars ("SignedHeaders=".data) cs
  let (headers, cs) ← takeClass1 (fun c => isWordChar c || c == '-' || c == ';') cs
  let cs ← expectChars (",".data) cs
  let cs := cs.dropWhile Char.isWhitespace
  let cs ← expectChars ("Signature=".data) cs
  let (signature, cs) ← takeClass1 isHexLower cs
  if cs.isEmpty then
    some { access_key := access_key, date := date, region := region,
           signature := signature, signed_headers := splitSemi headers }
  else none

/-- HTTP request as the handler sees it: method, URI path, raw query,
header map, and the fully accumulated body. -/
structure HttpRequest where
  method : String
  path : String
  query : Option String
  headers : List (String × String)
  body : Bytes
deriving Repr, DecidableEq

/-- hyper `HeaderMap::get`: header-name lookup is case-insensitive. -/
def headerGet (headers : List (String × String)) (k : String) : Option String :=
  (headers.find? (fun p => lowerAscii p.1 == lowerAscii k)).map Prod.snd

/-- Structural traversal: apply a fallible function to every element,
failing on the first `none` (models an iterator whose closure unwraps). -/
def optionTraverse {A B : Type} (f : A → Option B) : List A → Option (List B)
  | [] => some []
  | a :: t => (f a).bind fun b => (optionTraverse f t).map fun bs => b :: bs

/-- Model of `Auth::canonical_request`: LF-join of method, path as received, raw
query or empty, the name:trimmed-value lines of the signed headers in
declared order (each header lookup unwraps: `none` when absent), an empty
line, the semicolon-joined signed-headers list, and the value of
x-amz-content-sha256 (unwrap). -/
def Auth.canonical_request (auth : Auth) (req : HttpRequest) : Option String := do
  let lines ← optionTraverse
    (fun key => (headerGet req.headers key).map (fun v => key ++ ":" ++ trimChars v))
    auth.signed_headers
  let sha ← headerGet req.headers ("x-amz-content-sha256")
  some (String.intercalate "\n"
    [req.method, req.path, req.query.getD "", String.intercalate "\n" lines, "",
     String.intercalate ";" auth.signed_headers, sha])

/-- Model of `Auth::string_to_sign`: the AWS4-HMAC-SHA256 line, the x-amz-date header
value (unwrap), the scope date/region/s3/aws4_request, and the lowercase-hex
SHA-256 of the canonical request. `sha256` is the external digest
primitive. -/
def Auth.string_to_sign (sha256 : Bytes → Bytes) (auth : Auth) (req : HttpRequest) :
    Option String := do
  let cr ← auth.canonical_request req
  let amzDate ← headerGet req.headers ("x-amz-date")
  some ("AWS4-HMAC-SHA256\n" ++ amzDate ++ "\n" ++ auth.date ++ "/" ++ auth.region ++
    "/s3/aws4_request\n" ++ hexOfBytes (sha256 (strBytes cr)))

/-- Model of `Auth::key_builder`: the SigV4 key-derivation chain; the result is the
signing key with which the string to sign is MACed. `hmac key msg` is the
external HMAC-SHA256 primitive. -/
def Auth.key_builder (hmac : Bytes → Bytes → Bytes) (auth : Auth) (secret_access_key : String) :
    Bytes :=
  let date_key := hmac (strBytes ("AWS4" ++ secret_access_key)) (strBytes auth.date)
  let region_key := hmac date_key (strBytes auth.region)
  let service_key := hmac region_key (strBytes ("s3"))
  hmac service_key (strBytes ("aws4_request"))

/-- Model of `App::check_signature`: lowercase-hex HMAC of the string to sign under
the derived signing key, compared for equality with the parsed signature. -/
def App.check_signature (hmac : Bytes → Bytes → Bytes) (sha256 : Bytes → Bytes)
    (user : User) (auth : Auth) (req : HttpRequest) : Option Bool :=
  (auth.string_to_sign sha256 req).map fun sts =>
    hexOfBytes (hmac (auth.key_builder hmac user.secret_access_key) (strBytes sts))
      == auth.signature

/-- Operation variants dispatched by `App::handle`
(`src/drivers/web_server.rs`). -/
inductive Operation where
  | ListBuckets : Operation
  | ListObjects : String → Operation
  | CreateBucket : String → Operation
  | GetObject : String → String → Operation
  | PutObject : String → String → Operation
  | DeleteBucket : String → Operation
  | DeleteObject : String → String → Operation
deriving Repr, DecidableEq

/-- Split a character list at the FIRST slash (Rust `splitn(2, '/')` keeps
everything after the first separator in the second chunk). -/
def splitFirstSlash : List Char → Option (List Char × List Char)
  | [] => none
  | c :: cs =>
    if c = '/' then some ([], cs)
    else (splitFirstSlash cs).map (fun p => (c :: p.1, p.2))

/-- Rust `splitn(2, '/')`: one chunk when no slash occurs, otherwise the
part before the first slash and the untouched remainder. -/
def splitnTwoSlash (cs : List Char) : List (List Char) :=
  match splitFirstSlash cs with
  | none => [cs]
  | some (a, b) => [a, b]

/-- The `match (req.method(), bucket, key)` arms of `App::detect_operation`
(`src/drivers/web_server.rs`), in source order. -/
def operationOf (method : String) (bucket key : Option String) : Operation :=
  match method, bucket, key with
  | "GET", some b, some k => Operation.GetObject b k
  | "PUT", some b, some k => Operation.PutObject b k
  | "DELETE", some b, some k => Operation.DeleteObject b k
  | "PUT", some b, none => Operation.CreateBucket b
  | "GET", some b, none => Operation.ListObjects b
  | "DELETE", some b, none => Operation.DeleteBucket b
  | _, _, _ => Operation.ListBuckets

/-- Model of `App::detect_operation`: strip the leading slash (unwrap: `none` when
the path does not start with one), split at the first remaining slash,
filter out empty chunks, take the first chunk as bucket and the second as
key, and match on (method, bucket, key). -/
def App.detect_operation (method path : String) : Option Operation :=
  match path.data with
  | [] => none
  | c :: rest =>
    if c = '/' then
      let chunks := (splitnTwoSlash rest).filter (fun chunk => !chunk.isEmpty)
      some (operationOf method ((chunks.get? 0).map String.mk)
        ((chunks.get? 1).map String.mk))
    else none

/-- Debug rendering of the clock-counter model of a `DateTime<Local>`
(adapter XML uses the Rust Debug format of the date). -/
def dateDebugFormat (t : Nat) : String := toString t

/-- Model of `BucketResult::to_xml` (`src/adapters/bucket.rs`). -/
def bucketResultXml (b : Bucket) : String :=
  "<Bucket><Name>" ++ b.name ++ "</Name><CreationDate>" ++ dateDebugFormat b.creation_date ++
    "</CreationDate></Bucket>"

/-- Model of `OwnerResult::to_xml` (`src/adapters/user.rs`). -/
def ownerResultXml (display_name id : String) : String :=
  "<Owner><DisplayName>" ++ display_name ++ "</DisplayName><ID>" ++ id ++ "</ID></Owner>"

/-- Model of `ListAllMyBucketsResult::to_xml` (`src/adapters/bucket.rs`). -/
def listAllMyBucketsXml (buckets : List Bucket) (owner_display_name owner_id : String) :
    String :=
  "<ListAllMyBucketsResult><Buckets>" ++ String.join (buckets.map bucketResultXml) ++
    "</Buckets>" ++ ownerResultXml owner_display_name owner_id ++ "</ListAllMyBucketsResult>"

/-- Model of `ObjectResult::to_xml` (`src/adapters/object.rs`): empty ETag, the
object's key, an owner block with empty display name, size, last
modified. -/
def objectResultXml (o : Object) : String :=
  "<Contents><ETag></ETag><Key>" ++ o.key ++ "</Key>" ++ ownerResultXml "" o.owner_id ++
    "<Size>" ++ toString o.size ++ "</Size><LastModified>" ++
    dateDebugFormat o.last_modified ++ "</LastModified></Contents>"

/-- Model of `ListBucketResult::to_xml` (`src/adapters/object.rs`). -/
def listBucketXml (objects : List Object) (name : String) : String :=
  "<ListBucketResult><IsTruncated>false</IsTruncated>" ++
    String.join (objects.map objectResultXml) ++ "<Name>" ++ name ++ "</Name></ListBucketResult>"

/-- HTTP response produced by the handler. -/
structure HttpResponse where
  status : Nat
  headers : List (String × String)
  body : Bytes
deriving Repr, DecidableEq

/-- Model of `App::get_auth_header`: the Authorization header, defaulting to the
empty string when absent. -/
def App.get_auth_header (req : HttpRequest) : String :=
  (headerGet req.headers ("Authorization")).getD ""

/-- Rendering of a `Last-Modified` header value
(`last_modified.with_timezone(&Utc).format(...)` in the GetObject arm),
on the clock-counter model of time. -/
def httpDateFormat (t : Nat) : String :=
  "httpdate:" ++ toString t

/-- Plain constructor for an HTTP response. -/
def mkResponse (status : Nat) (headers : List (String × String)) (body : Bytes) :
    HttpResponse :=
  { status := status, headers := headers, body := body }

/-- Operation dispatch of `App::handle` after authentication: each arm calls
the storage engine (any panic inside propagates as `none`) and builds the
response. `md5` is the external MD5 primitive used for the PutObject ETag. -/
def App.handleOp (md5 : Bytes → Bytes) (st : Storage) (user : User) (req : HttpRequest) :
    Option (Storage × HttpResponse) := do
  match ← App.detect_operation req.method req.path with
  | Operation.ListBuckets => do
    let buckets ← st.list_buckets user.id
    some (st, mkResponse 200 [] (strBytes (listAllMyBucketsXml buckets user.display_name user.id)))
  | Operation.CreateBucket bucket => do
    let st ← st.create_bucket user.id bucket
    some (st, mkResponse 200 [] [])
  | Operation.DeleteBucket bucket => do
    let st ← st.delete_bucket bucket
    some (st, mkResponse 204 [] [])
  | Operation.ListObjects bucket =>
    some (st, mkResponse 200 [] (strBytes (listBucketXml (st.list_objects bucket) bucket)))
  | Operation.PutObject bucket key => do
    let content_md5 := hexOfBytes (md5 req.body)
    let st ← st.put_object user bucket key req.body
    some (st, mkResponse 200 [(("ETag"), content_md5)] [])
  | Operation.GetObject bucket key => do
    let (object, buf) ← st.get_object bucket key
    some (st, mkResponse 200 [(("Last-Modified"), httpDateFormat object.last_modified)] buf)
  | Operation.DeleteObject bucket key => do
    let st ← st.delete_object bucket key
    some (st, mkResponse 204 [] [])

/-- Model of `App::handle`: read the Authorization header (empty string when absent),
parse it (the captures unwrap panics on a non-matching header), look up the
user by access key (unwrap: `none` when the access key resolves to no user),
then — when the header string is non-empty — verify the signature and
return a bare 401 with empty body on mismatch; otherwise dispatch the
detected operation. -/
def App.handle (hmac : Bytes → Bytes → Bytes) (sha256 md5 : Bytes → Bytes)
    (st : Storage) (req : HttpRequest) : Option (Storage × HttpResponse) := do
  let auth_str := App.get_auth_header req
  let auth ← Auth.parse auth_str
  let user ← st.find_user auth.access_key
  if auth_str != "" then
    match App.check_signature hmac sha256 user auth req with
    | none => none
    | some ok =>
      if !ok then
        some (st, mkResponse 401 [] [])
      else
        App.handleOp md5 st user req
  else
    App.handleOp md5 st user req

/-- Reference SigV4 signing-key chain, written from the spec (section 4.4):
kDate = HMAC("AWS4"+secret, date), kRegion = HMAC(kDate, region),
kService = HMAC(kRegion, "s3"), kSigning = HMAC(kService, "aws4_request").
Definition follows the spec's words, for comparison with
`Auth.key_builder`. -/
def sigv4SigningKey (hmac : Bytes → Bytes → Bytes) (secret date region : String) : Bytes :=
  let kDate := hmac (strBytes ("AWS4" ++ secret)) (strBytes date)
  let kRegion := hmac kDate (strBytes region)
  let kService := hmac kRegion (strBytes ("s3"))
  hmac kService (strBytes ("aws4_request"))

/-- Reference canonical request, written from the spec (section 4.4): LF-join
of method, path as received, raw query or empty, the name:trimmed-value
lines of the signed headers in declared order, an empty line, the
semicolon-joined signed-headers list, and the x-amz-content-sha256 value.
Header lookups are total here (missing headers read as empty); the
refinement theorem assumes the headers are present. -/
def sigv4CanonicalRequest (auth : Auth) (req : HttpRequest) : String :=
  String.intercalate "\n"
    [req.method, req.path, req.query.getD "",
     String.intercalate "\n"
       (auth.signed_headers.map (fun h => h ++ ":" ++ trimChars ((headerGet req.headers h).getD ""))),
     "", String.intercalate ";" auth.signed_headers,
     (headerGet req.headers ("x-amz-content-sha256")).getD ""]

/-- Reference string to sign, written from the spec (section 4.4):
"AWS4-HMAC-SHA256", the x-amz-date value, the scope
date/region/s3/aws4_request, and the lowercase-hex SHA-256 of the canonical
request. -/
def sigv4StringToSign (sha256 : Bytes → Bytes) (auth : Auth) (req : HttpRequest) : String :=
  "AWS4-HMAC-SHA256\n" ++ (headerGet req.headers ("x-amz-date")).getD "" ++ "\n" ++
    auth.date ++ "/" ++ auth.region ++ "/s3/aws4_request\n" ++
    hexOfBytes (sha256 (strBytes (sigv4CanonicalRequest auth req)))

/-- Reference verification, written from the spec (section 4.4): compute
HMAC(kSigning, string_to_sign), lowercase-hex encode, accept exactly when it
equals the parsed signature. -/
def sigv4ReferenceAccepts (hmac : Bytes → Bytes → Bytes) (sha256 : Bytes → Bytes)
    (secret : String) (auth : Auth) (req : HttpRequest) : Bool :=
  hexOfBytes (hmac (sigv4SigningKey hmac secret auth.date auth.region)
    (strBytes (sigv4StringToSign sha256 auth req))) == auth.signature

/-- The dispatch table of spec section 4.5: a row per (method, segment
shape), every other combination falling back to ListBuckets. Definition
follows the spec's words, for comparison with `operationOf`. -/
def specTableOf (method : String) (segments : List String) : Operation :=
  match method, segments with
  | "GET", [] => Operation.ListBuckets
  | "GET", [b] => Operation.ListObjects b
  | "GET", [b, k] => Operation.GetObject b k
  | "PUT", [b] => Operation.CreateBucket b
  | "PUT", [b, k] => Operation.PutObject b k
  | "DELETE", [b] => Operation.DeleteBucket b
  | "DELETE", [b, k] => Operation.DeleteObject b k
  | _, _ => Operation.ListBuckets

/-- Classifier written from the spec's dispatch table (section 4.5): strip
the leading slash, split the remainder into at most two non-empty segments,
and map (method, segments) per the table. Definition follows the spec's
words, for comparison with `App.detect_operation`. -/
def classifySpec (method path : String) : Operation :=
  specTableOf method (((splitnTwoSlash (path.data.drop 1)).filter
    (fun chunk => !chunk.isEmpty)).map String.mk)

/-- Sequence of `Db::create_user` calls; `none` when any call panics. -/
def runCreateUsers (db : Db) (users : List User) : Option Db :=
  match users with
  | [] => some db
  | u :: rest => (db.create_user u).bind (fun db1 => runCreateUsers db1 rest)

/-- Concrete HMAC stand-in used by witnesses (any function works; the
theorems are parametric in the primitive). -/
def exHmac : Bytes → Bytes → Bytes := fun _ _ => [0]

/-- Concrete SHA-256 stand-in used by witnesses. -/
def exSha256 : Bytes → Bytes := fun _ => [1]

/-- Concrete MD5 stand-in used by witnesses. -/
def exMd5 : Bytes → Bytes := fun b => b

/-- The user the server seeds at startup (`src/bin/s3_server.rs`). -/
def exUser : User :=
  { id := "mehdy", display_name := "Mehdy", access_key := "ABC1234",
    secret_access_key := "AbC1Zxv" }

/-- A second user with a different id but the same access key. -/
def exUserSameAk : User :=
  { id := "other", display_name := "Other", access_key := "ABC1234",
    secret_access_key := "zzz" }

/-- Empty store over base path "base". -/
def exState0 : Storage := { base_path := "base", db := Db.empty, fs := Fs.empty, time := 0 }

/-- Store after seeding the user. -/
def exState1 : Storage := (exState0.new_user "mehdy" "Mehdy" "ABC1234" "AbC1Zxv").getD exState0

/-- Store after `new_user` and `create_bucket("mehdy", "buck")`. -/
def exStateUB : Storage := (exState1.create_bucket "mehdy" "buck").getD exState0

/-- Store with two objects `a` and `k` in bucket `buck`. -/
def exStateTwoObjs : Storage :=
  (((exStateUB.put_object exUser "buck" "a" [1]).bind
    (fun st => st.put_object exUser "buck" "k" [2])).getD exState0)

/-- The catalog row of object `k` in `exStateTwoObjs`. -/
def exObjK : Object :=
  { key := "k", bucket := "buck", owner_id := "mehdy", size := 1, last_modified := 2 }

/-- Valid-shaped Authorization header whose signature is the lowercase hex
of the one-byte digest `[0]` that `exHmac` always produces. -/
def exAuthHeader : String :=
  "AWS4-HMAC-SHA256 Credential=ABC1234/20240101/us-east-1/s3/aws4_request, SignedHeaders=host, Signature=00"

/-- Same header with the signature flipped, so verification fails. -/
def exBadAuthHeader : String :=
  "AWS4-HMAC-SHA256 Credential=ABC1234/20240101/us-east-1/s3/aws4_request, SignedHeaders=host, Signature=0a"

/-- Header whose access key resolves to no stored user. -/
def exUnknownAkHeader : String :=
  "AWS4-HMAC-SHA256 Credential=ZZZ9/20240101/us-east-1/s3/aws4_request, SignedHeaders=host, Signature=00"

/-- Header list carrying a given Authorization value plus the signed and
required amz headers. -/
def exHeaders (auth : String) : List (String × String) :=
  [(("Authorization"), auth), (("host"), "x"), (("x-amz-date"), "d"),
   (("x-amz-content-sha256"), "e")]

/-- Signed `PUT /buck/hello` with body "world". -/
def exPutReq : HttpRequest :=
  { method := "PUT", path := "/buck/hello", query := none,
    headers := exHeaders exAuthHeader, body := [119, 111, 114, 108, 100] }

/-- Signed `PUT /buck` (bucket creation). -/
def exPutBuckReq : HttpRequest :=
  { method := "PUT", path := "/buck", query := none,
    headers := exHeaders exAuthHeader, body := [] }

/-- Signed `GET /buck/nope` for a key that was never put. -/
def exGetNopeReq : HttpRequest :=
  { method := "GET", path := "/buck/nope", query := none,
    headers := exHeaders exAuthHeader, body := [] }

/-- Request `PUT /buck/hello` whose signature does not verify. -/
def exBadSigReq : HttpRequest :=
  { method := "PUT", path := "/buck/hello", query := none,
    headers := exHeaders exBadAuthHeader, body := [119, 111, 114, 108, 100] }

/-- Request whose Authorization header parses but whose access key belongs
to no user. -/
def exUnknownAkReq : HttpRequest :=
  { method := "PUT", path := "/buck/hello", query := none,
    headers := exHeaders exUnknownAkHeader, body := [] }

/-- The `Auth` value `exAuthHeader` parses to. -/
def exAuth : Auth :=
  { access_key := "ABC1234", date := "20240101", region := "us-east-1",
    signature := "00", signed_headers := ["host"] }

/-- The `Auth` value `exBadAuthHeader` parses to (signature flipped). -/
def exBadAuth : Auth :=
  { access_key := "ABC1234", date := "20240101", region := "us-east-1",
    signature := "0a", signed_headers := ["host"] }

/-- A second user with distinct id and distinct access key. -/
def exUserDistinctAk : User :=
  { id := "zola", display_name := "Zola", access_key := "XYZ9",
    secret_access_key := "qqq" }

/-- Database after creating two users with distinct access keys. -/
def exDbTwoUsers : Db :=
  (runCreateUsers Db.empty [exUser, exUserDistinctAk]).getD Db.empty

/-- Store after a put of a fresh key "hello" with a two-byte body. -/
def exStateFreshPut : Storage :=
  (exStateUB.put_object exUser "buck" "hello" [5, 6]).getD exState0

/-- Store after putting key "hello" with body [1] and then overwriting it
with body [2, 3]. -/
def exStateOverwrite : Storage :=
  ((exStateUB.put_object exUser "buck" "hello" [1]).bind
    (fun st => st.put_object exUser "buck" "hello" [2, 3])).getD exState0

/-! Helper lemmas about the association-list model of sled trees. -/

theorem find?_append_of_none {α : Type} (p : α → Bool) (l1 l2 : List α)
    (h : l1.find? p = none) : (l1 ++ l2).find? p = l2.find? p := by
  induction l1 with
  | nil => rfl
  | cons a t ih =>
    rw [List.find?_cons] at h
    rw [List.cons_append, List.find?_cons]
    cases hp : p a with
    | true => rw [hp] at h; exact Option.noConfusion h
    | false => rw [hp] at h; exact ih h

theorem find?_append_of_some {α : Type} (p : α → Bool) (l1 l2 : List α) (a : α)
    (h : l1.find? p = some a) : (l1 ++ l2).find? p = some a := by
  induction l1 with
  | nil => simp at h
  | cons b t ih =>
    rw [List.find?_cons] at h
    rw [List.cons_append, List.find?_cons]
    cases hp : p b with
    | true => rw [hp] at h; exact h
    | false => rw [hp] at h; exact ih h

theorem find?_replace_map {α : Type} (t : List (String × α)) (k : String) (v : α)
    (h : t.any (fun p => p.1 == k) = true) :
    ((t.map (fun p => if p.1 == k then (k, v) else p)).find? (fun p => p.1 == k))
      = some (k, v) := by
  induction t with
  | nil => simp at h
  | cons q rest ih =>
    rw [List.map_cons, List.find?_cons]
    by_cases hq : (q.1 == k) = true
    · rw [if_pos hq]
      simp
    · have hq' : (q.1 == k) = false := by
        cases hb : (q.1 == k)
        · rfl
        · exact absurd hb hq
      have h' : rest.any (fun p => p.1 == k) = true := by
        rw [List.any_cons, hq'] at h
        simpa using h
      rw [if_neg hq, hq']
      exact ih h'

theorem treeGet_eq_none_any {α : Type} (t : List (String × α)) (k : String)
    (h : treeGet t k = none) : t.any (fun p => p.1 == k) = false := by
  unfold treeGet at h
  rw [Option.map_eq_none'] at h
  rw [List.find?_eq_none] at h
  simp only [List.any_eq_false]
  intro p hp
  simpa using h p hp

theorem treeGet_treeInsert_self {α : Type} (t : List (String × α)) (k : String) (v : α) :
    treeGet (treeInsert t k v) k = some v := by
  unfold treeInsert
  by_cases ha : t.any (fun p => p.1 == k) = true
  · rw [if_pos ha]
    unfold treeGet
    rw [find?_replace_map t k v ha]
    rfl
  · have ha' : t.any (fun p => p.1 == k) = false := by
      cases hb : t.any (fun p => p.1 == k)
      · rfl
      · exact absurd hb ha
    rw [if_neg ha]
    unfold treeGet
    have hnone : t.find? (fun p => p.1 == k) = none := by
      rw [List.find?_eq_none]
      intro p hp
      have := (List.any_eq_false.mp ha') p hp
      simpa using this
    rw [find?_append_of_none _ _ _ hnone]
    simp [List.find?_cons]

theorem treeInsert_of_get_none {α : Type} (t : List (String × α)) (k : String) (v : α)
    (h : treeGet t k = none) : treeInsert t k v = t ++ [(k, v)] := by
  unfold treeInsert
  rw [treeGet_eq_none_any t k h]
  simp

theorem optionTraverse_eq_some_map {A B : Type} (f : A → Option B) (g : A → B) (l : List A)
    (h : ∀ x ∈ l, f x = some (g x)) : optionTraverse f l = some (l.map g) := by
  induction l with
  | nil => rfl
  | cons a t ih =>
    have ha : f a = some (g a) := h a (by simp)
    have ht : optionTraverse f t = some (t.map g) := ih (fun x hx => h x (by simp [hx]))
    rw [optionTraverse, ha, Option.some_bind, ht]
    rfl

/-! Claim C1. -/

/-- C1: evaluation at the failing input. With objects `a` and `k` in bucket
`buck`, `delete_object("buck", "k")` leaves the catalog containing exactly
the object `k` that was asked to be deleted (object `a` is dropped), so a
subsequent `get_object("buck", "k")` still finds the catalog entry while the
blob is gone and the whole lookup aborts (`none`), never returning NotFound:
the code contradicts the claim that delete removes exactly the matching
element. -/
theorem c1_delete_object_keeps_matching_key :
    (exStateTwoObjs.delete_object "buck" "k").map (fun st => st.list_objects "buck")
        = some [exObjK]
      ∧ (exStateTwoObjs.delete_object "buck" "k").bind (fun st => st.db.get_object "buck" "k")
        = some exObjK
      ∧ (exStateTwoObjs.delete_object "buck" "k").bind (fun st => st.get_object "buck" "a")
        = none := by
  refine ⟨by decide, by decide, by decide⟩

/-! Claim C2. -/

/-- C2 counterexample: putting key `hello` with a one-byte body and then
overwriting it with a two-byte body leaves the ORIGINAL metadata in the
catalog (`HashSet::insert` retains the existing equal element), so
`get_object` reports size 1 while the stored payload has length 2 — the
claimed `size == len(body)` after an overwrite is false. -/
theorem c2_overwrite_keeps_stale_metadata :
    exStateOverwrite.get_object "buck" "hello"
        = some ({ key := "hello", bucket := "buck", owner_id := "mehdy",
                  size := 1, last_modified := 1 }, [2, 3])
      ∧ ((1 : Int) = (([2, 3] : Bytes).length : Int) → False) := by
  refine ⟨by decide, by decide⟩

/-- C2 amended: `upsert_object` adds the object only when no element equal
under (bucket, key) is present, and retains the existing element otherwise.
Consequently, after a successful `put_object` of a key that is NOT yet in
the bucket's catalog set, `get_object` returns the payload just written and
metadata with `size == len(body)` and `last_modified >=` the put's start
time; an overwriting put refreshes the payload but keeps the previously
stored metadata. -/
theorem c2_amended_fresh_put_metadata (st : Storage) (u : User) (B K : String)
    (body : Bytes) (st2 : Storage)
    (hfresh : st.db.get_object B K = none)
    (hput : st.put_object u B K body = some st2) :
    ∃ o : Object, st2.get_object B K = some (o, body)
      ∧ o.size = (body.length : Int) ∧ st.time ≤ o.last_modified := by
  unfold Storage.put_object at hput
  by_cases hdir : st.fs.dirs.contains (pathJoin st.base_path B) = true
  · rw [if_pos hdir] at hput
    injection hput with hput
    subst hput
    refine ⟨{ key := K, bucket := B, owner_id := u.id,
              size := (body.length : Int), last_modified := st.time }, ?_, rfl, le_refl _⟩
    have hnone : ((treeGet st.db.bucket_name_to_objects B).getD []).find?
        (fun o => o.key == K) = none := hfresh
    have hany : ((treeGet st.db.bucket_name_to_objects B).getD []).any
        (fun o => objEq o { key := K, bucket := B, owner_id := u.id,
                            size := (body.length : Int), last_modified := st.time })
          = false := by
      rw [List.any_eq_false]
      intro o ho
      have hk := List.find?_eq_none.mp hnone o ho
      simp only [objEq, Bool.and_eq_true, not_and]
      intro _
      simpa using hk
    simp only [Storage.get_object, Fs.readFile, Db.get_object, Db.create_object,
      Db.get_objects_by_bucket_name, hashSetInsert]
    rw [treeGet_treeInsert_self, Option.some_bind, treeGet_treeInsert_self,
      Option.getD_some]
    rw [hany]
    rw [if_neg (by simp)]
    rw [find?_append_of_none _ _ _ hnone]
    simp [List.find?_cons]
  · rw [if_neg hdir] at hput
    exact Option.noConfusion hput

/-! Claim C6. -/

/-- C6: evaluation at the failing input. Getting a key that was never put
(`GET /buck/nope` against a store holding only bucket `buck`) makes
`Storage::get_object` abort on the unwrap of the missing file — the handler
produces no response at all (`none`), rather than the NotFound / HTTP 404
the claim requires. -/
theorem c6_get_missing_object_panics :
    exStateUB.get_object "buck" "nope" = none
      ∧ App.handle exHmac exSha256 exMd5 exStateUB exGetNopeReq = none := by
  refine ⟨by decide, by decide⟩

/-! Claim C8. -/

/-- C8 counterexample: two successful `create_user` calls for distinct ids
`mehdy` and `other` sharing access key ABC1234 leave two stored User rows
with that access key, so the uniqueness invariant is not preserved by every
sequence of successful operations. -/
theorem c8_two_users_share_access_key :
    (runCreateUsers Db.empty [exUser, exUserSameAk]).map
        (fun db => db.user_id_to_user.countP (fun p => p.2.access_key == "ABC1234"))
        = some 2
      ∧ ((2 : Nat) ≤ 1 → False) := by
  refine ⟨by decide, by decide⟩

/-- Rows appended by a successful sequence of `create_user` calls carry
exactly the access keys of the created users, in order. -/
theorem runCreateUsers_access_keys (users : List User) :
    ∀ db db2 : Db, runCreateUsers db users = some db2 →
      db2.user_id_to_user.map (fun p => p.2.access_key)
        = db.user_id_to_user.map (fun p => p.2.access_key)
            ++ users.map (fun u => u.access_key) := by
  induction users with
  | nil =>
    intro db db2 h
    unfold runCreateUsers at h
    injection h with h
    subst h
    simp
  | cons u rest ih =>
    intro db db2 h
    unfold runCreateUsers at h
    cases hc : db.create_user u with
    | none => rw [hc] at h; exact Option.noConfusion h
    | some db1 =>
      rw [hc, Option.some_bind] at h
      unfold Db.create_user at hc
      by_cases hid : (treeGet db.user_id_to_user u.id).isSome = true
      · rw [if_pos hid] at hc; exact Option.noConfusion hc
      · rw [if_neg hid] at hc
        injection hc with hc
        have hfresh : treeGet db.user_id_to_user u.id = none := by
          cases hg : treeGet db.user_id_to_user u.id
          · rfl
          · rw [hg] at hid; simp at hid
        have h1 : db1.user_id_to_user = db.user_id_to_user ++ [(u.id, u)] := by
          rw [← hc]
          exact treeInsert_of_get_none _ _ _ hfresh
        rw [ih db1 db2 h, h1]
        simp

/-- Nodup lists contain each value at most once, counted through `==`. -/
theorem countP_le_one_of_nodup (L : List String) (h : L.Nodup) (ak : String) :
    L.countP (fun s => s == ak) ≤ 1 := by
  induction L with
  | nil => simp
  | cons a t ih =>
    rw [List.countP_cons]
    have hrest := ih (List.nodup_cons.mp h).2
    by_cases ha : (a == ak) = true
    · have haeq : a = ak := by simpa using ha
      have hzero : t.countP (fun s => s == ak) = 0 := by
        rw [List.countP_eq_zero]
        intro s hs
        have hnotmem := (List.nodup_cons.mp h).1
        subst haeq
        simp only [beq_iff_eq]
        intro he
        subst he
        exact hnotmem hs
      rw [hzero]
      simp [ha]
    · have hna : (a == ak) = false := by
        cases hb : (a == ak)
        · rfl
        · exact absurd hb ha
      rw [hna]
      simpa using hrest

/-- C8 amended: `create_user` enforces only user-id uniqueness, so the
access-key invariant holds exactly for runs whose created users carry
pairwise-distinct access keys: starting from the empty catalog, after any
successful sequence of such `create_user` calls, at most one stored User
row has any given access key (two calls sharing an access key violate it,
as the counterexample shows). -/
theorem c8_amended_distinct_access_keys_unique (users : List User) (db : Db)
    (h1 : runCreateUsers Db.empty users = some db)
    (h2 : (users.map (fun u => u.access_key)).Nodup) (ak : String) :
    db.user_id_to_user.countP (fun p => p.2.access_key == ak) ≤ 1 := by
  have hmap := runCreateUsers_access_keys users Db.empty db h1
  have hcnt : db.user_id_to_user.countP (fun p => p.2.access_key == ak)
      = (db.user_id_to_user.map (fun p => p.2.access_key)).countP (fun s => s == ak) := by
    rw [List.countP_map]
    rfl
  rw [hcnt, hmap]
  have : (Db.empty.user_id_to_user.map (fun p => p.2.access_key)) = [] := rfl
  rw [this, List.nil_append]
  exact countP_le_one_of_nodup _ h2 ak

/-- C8 witness: the amended theorem applied to the two-user run with
distinct access keys ABC1234 and XYZ9. -/
theorem c8_amended_witness :
    runCreateUsers Db.empty [exUser, exUserDistinctAk] = some exDbTwoUsers
      ∧ ([exUser, exUserDistinctAk].map (fun u => u.access_key)).Nodup
      ∧ exDbTwoUsers.user_id_to_user.countP
          (fun p => p.2.access_key == "ABC1234") ≤ 1 :=
  ⟨by decide, by decide,
    c8_amended_distinct_access_keys_unique [exUser, exUserDistinctAk] exDbTwoUsers
      (by decide) (by decide) "ABC1234"⟩

/-! Claim C10. -/

/-- C10: when the Authorization header parses but the access key resolves to
no stored user, the handler aborts on the unwrap of the user lookup and
produces no HTTP response at all (`none`); a response exists only when the
access key resolves. -/
theorem c10_unknown_access_key_no_response
    (hmac : Bytes → Bytes → Bytes) (sha256 md5 : Bytes → Bytes)
    (st : Storage) (req : HttpRequest) (auth : Auth)
    (hauth : Auth.parse (App.get_auth_header req) = some auth)
    (hnouser : st.find_user auth.access_key = none) :
    App.handle hmac sha256 md5 st req = none := by
  simp only [App.handle, hauth, Option.bind_eq_bind, Option.some_bind, hnouser,
    Option.none_bind]

/-- C10 witness: the unknown-access-key request against the seeded store. -/
theorem c10_witness :
    Auth.parse (App.get_auth_header exUnknownAkReq)
        = some { access_key := "ZZZ9", date := "20240101", region := "us-east-1",
                 signature := "00", signed_headers := ["host"] }
      ∧ exStateUB.find_user "ZZZ9" = none
      ∧ App.handle exHmac exSha256 exMd5 exStateUB exUnknownAkReq = none :=
  ⟨by decide, by decide,
    c10_unknown_access_key_no_response exHmac exSha256 exMd5 exStateUB exUnknownAkReq
      { access_key := "ZZZ9", date := "20240101", region := "us-east-1",
        signature := "00", signed_headers := ["host"] }
      (by decide) (by decide)⟩

/-- C2 witness: the amended theorem applied to a fresh put of key `hello`
with a two-byte body against the seeded store. -/
theorem c2_amended_witness :
    exStateUB.db.get_object "buck" "hello" = none
      ∧ exStateUB.put_object exUser "buck" "hello" [5, 6] = some exStateFreshPut
      ∧ ∃ o : Object, exStateFreshPut.get_object "buck" "hello" = some (o, [5, 6])
          ∧ o.size = (([5, 6] : Bytes).length : Int) ∧ exStateUB.time ≤ o.last_modified :=
  ⟨by decide, by decide,
    c2_amended_fresh_put_metadata exStateUB exUser "buck" "hello" [5, 6] exStateFreshPut
      (by decide) (by decide)⟩

/-! Claim C3, with its helper lemmas. -/

/-- An Authorization header that parses is not the empty string. -/
theorem parse_some_ne_empty (h : String) (a : Auth) (hp : Auth.parse h = some a) :
    (h != "") = true := by
  rw [bne_iff_ne]
  intro he
  subst he
  have hnone : Auth.parse "" = none := by decide
  rw [hnone] at hp
  exact Option.noConfusion hp

/-- After a `HashSet::insert` of an object with the given key, a find by
that key succeeds (either the retained old element or the inserted one). -/
theorem find?_hashSetInsert (objects : List Object) (obj : Object) (K : String)
    (hkey : obj.key = K) :
    ∃ o, (hashSetInsert objects obj).find? (fun x => x.key == K) = some o := by
  cases hf : objects.find? (fun x => x.key == K) with
  | some o' =>
    refine ⟨o', ?_⟩
    unfold hashSetInsert
    by_cases ha : objects.any (fun o => objEq o obj) = true
    · rw [if_pos ha]; exact hf
    · rw [if_neg ha]; exact find?_append_of_some _ _ _ _ hf
  | none =>
    refine ⟨obj, ?_⟩
    unfold hashSetInsert
    have ha : objects.any (fun o => objEq o obj) = false := by
      rw [List.any_eq_false]
      intro o ho
      have hk := List.find?_eq_none.mp hf o ho
      simp only [objEq, Bool.and_eq_true, not_and]
      intro _
      rw [hkey]
      simpa using hk
    rw [ha]
    rw [if_neg (by simp)]
    rw [find?_append_of_none _ _ _ hf]
    simp [List.find?_cons, hkey]

/-- A successful `put_object` leaves a state in which `get_object` on the
same (bucket, key) returns the payload just written, together with some
catalog entry. -/
theorem put_then_get_payload (st : Storage) (u : User) (B K : String) (body : Bytes)
    (st2 : Storage) (hput : st.put_object u B K body = some st2) :
    ∃ o, st2.get_object B K = some (o, body) := by
  unfold Storage.put_object at hput
  by_cases hdir : st.fs.dirs.contains (pathJoin st.base_path B) = true
  · rw [if_pos hdir] at hput
    injection hput with hput
    subst hput
    obtain ⟨o, ho⟩ := find?_hashSetInsert ((treeGet st.db.bucket_name_to_objects B).getD [])
      { key := K, bucket := B, owner_id := u.id,
        size := (body.length : Int), last_modified := st.time } K rfl
    refine ⟨o, ?_⟩
    simp only [Storage.get_object, Fs.readFile, Db.get_object, Db.create_object,
      Db.get_objects_by_bucket_name]
    rw [treeGet_treeInsert_self, Option.some_bind, treeGet_treeInsert_self,
      Option.getD_some, ho]
    rfl
  · rw [if_neg hdir] at hput
    exact Option.noConfusion hput

/-- C3: a signed PUT whose signature verifies, classified as
PutObject(B, K), against a store in which bucket B's directory exists,
yields a 200 response whose ETag header is the lowercase-hex MD5 of the
request body, and a subsequent `get_object(B, K)` returns a payload equal
to that body byte-for-byte. -/
theorem c3_put_get_roundtrip_etag
    (hmac : Bytes → Bytes → Bytes) (sha256 md5 : Bytes → Bytes)
    (st : Storage) (req : HttpRequest) (auth : Auth) (u : User) (B K : String)
    (hauth : Auth.parse (App.get_auth_header req) = some auth)
    (huser : st.find_user auth.access_key = some u)
    (hsig : App.check_signature hmac sha256 u auth req = some true)
    (hop : App.detect_operation req.method req.path = some (Operation.PutObject B K))
    (hdir : st.fs.dirs.contains (pathJoin st.base_path B) = true) :
    ∃ st2 o, App.handle hmac sha256 md5 st req
        = some (st2, mkResponse 200 [(("ETag"), hexOfBytes (md5 req.body))] [])
      ∧ st2.get_object B K = some (o, req.body) := by
  have hne := parse_some_ne_empty _ _ hauth
  have hput : st.put_object u B K req.body = some { st with
      fs := { st.fs with
        files := treeInsert st.fs.files (pathJoin (pathJoin st.base_path B) K) req.body },
      db := st.db.create_object
        { key := K, bucket := B, owner_id := u.id,
          size := (req.body.length : Int), last_modified := st.time },
      time := st.time + 1 } := by
    unfold Storage.put_object
    rw [if_pos hdir]
  obtain ⟨o, ho⟩ := put_then_get_payload st u B K req.body _ hput
  refine ⟨_, o, ?_, ho⟩
  simp only [App.handle, hauth, Option.bind_eq_bind, Option.some_bind, huser, hne,
    if_true, hsig, Bool.not_true, Bool.false_eq_true]
  simp only [App.handleOp, hop, Option.bind_eq_bind, Option.some_bind, hput]
  rfl

/-- C3 witness: the signed `PUT /buck/hello` with body "world" against the
seeded store, with the stand-in digest primitives. -/
theorem c3_witness :
    Auth.parse (App.get_auth_header exPutReq) = some exAuth
      ∧ exStateUB.find_user exAuth.access_key = some exUser
      ∧ App.check_signature exHmac exSha256 exUser exAuth exPutReq = some true
      ∧ App.detect_operation exPutReq.method exPutReq.path
          = some (Operation.PutObject "buck" "hello")
      ∧ exStateUB.fs.dirs.contains (pathJoin exStateUB.base_path "buck") = true
      ∧ ∃ st2 o, App.handle exHmac exSha256 exMd5 exStateUB exPutReq
          = some (st2, mkResponse 200 [(("ETag"), hexOfBytes (exMd5 exPutReq.body))] [])
        ∧ st2.get_object "buck" "hello" = some (o, exPutReq.body) :=
  ⟨by decide, by decide, by decide, by decide, by decide,
    c3_put_get_roundtrip_etag exHmac exSha256 exMd5 exStateUB exPutReq exAuth exUser
      "buck" "hello" (by decide) (by decide) (by decide) (by decide) (by decide)⟩

/-! Claim C4. -/

/-- C4: when every declared signed header, x-amz-date and
x-amz-content-sha256 are present, the code's signature verification agrees
exactly with the SigV4 reference definition written from the spec: the
HMAC-SHA256 of the string to sign under the derived signing key,
lowercase-hex encoded, accepted exactly when equal to the parsed
signature. Parametric in the external HMAC-SHA256 and SHA-256 primitives. -/
theorem c4_check_signature_matches_reference
    (hmac : Bytes → Bytes → Bytes) (sha256 : Bytes → Bytes)
    (user : User) (auth : Auth) (req : HttpRequest)
    (hh : ∀ h ∈ auth.signed_headers, (headerGet req.headers h).isSome = true)
    (hd : (headerGet req.headers ("x-amz-date")).isSome = true)
    (hc : (headerGet req.headers ("x-amz-content-sha256")).isSome = true) :
    App.check_signature hmac sha256 user auth req
      = some (sigv4ReferenceAccepts hmac sha256 user.secret_access_key auth req) := by
  obtain ⟨dv, hdv⟩ := Option.isSome_iff_exists.mp hd
  obtain ⟨cv, hcv⟩ := Option.isSome_iff_exists.mp hc
  have htrav : optionTraverse
      (fun key => (headerGet req.headers key).map (fun v => key ++ ":" ++ trimChars v))
      auth.signed_headers
      = some (auth.signed_headers.map
          (fun h => h ++ ":" ++ trimChars ((headerGet req.headers h).getD ""))) := by
    apply optionTraverse_eq_some_map
    intro x hx
    obtain ⟨v, hv⟩ := Option.isSome_iff_exists.mp (hh x hx)
    rw [hv]
    rfl
  simp only [App.check_signature, Auth.string_to_sign, Auth.canonical_request,
    Auth.key_builder, sigv4ReferenceAccepts, sigv4SigningKey, sigv4StringToSign,
    sigv4CanonicalRequest, htrav, hdv, hcv, Option.bind_eq_bind, Option.some_bind,
    Option.map_some', Option.getD_some]

/-- C4 witness: the verification agreement evaluated on the signed
`PUT /buck/hello` request with the stand-in primitives. -/
theorem c4_witness :
    (∀ h ∈ exAuth.signed_headers, (headerGet exPutReq.headers h).isSome = true)
      ∧ (headerGet exPutReq.headers ("x-amz-date")).isSome = true
      ∧ (headerGet exPutReq.headers ("x-amz-content-sha256")).isSome = true
      ∧ App.check_signature exHmac exSha256 exUser exAuth exPutReq
          = some (sigv4ReferenceAccepts exHmac exSha256 exUser.secret_access_key
              exAuth exPutReq) :=
  ⟨by decide, by decide, by decide,
    c4_check_signature_matches_reference exHmac exSha256 exUser exAuth exPutReq
      (by decide) (by decide) (by decide)⟩

/-! Claim C5. -/

/-- C5 counterexample: after the seeded successful `create_bucket("mehdy",
"buck")`, a second signed `PUT /buck` does not surface Conflict as HTTP
409 — `Db::create_bucket` panics on the duplicate name and the handler
produces no HTTP response at all (`none`). -/
theorem c5_duplicate_bucket_yields_no_response :
    exState1.create_bucket "mehdy" "buck" = some exStateUB
      ∧ App.handle exHmac exSha256 exMd5 exStateUB exPutBuckReq = none := by
  refine ⟨by decide, by decide⟩

/-- C5 amended: a second `create_bucket` for an already-created name fails
before writing anything: `Db::create_bucket` detects the duplicate and
panics (modelled `none`), so the request dies with no HTTP response (no
409) and no catalog change — rather than surfacing Conflict as HTTP 409. -/
theorem c5_amended_duplicate_create_bucket_panics (st st2 : Storage)
    (owner owner2 B : String)
    (h : st.create_bucket owner B = some st2) :
    st2.create_bucket owner2 B = none := by
  simp only [Storage.create_bucket] at h ⊢
  obtain ⟨db2, hdb2, hst2⟩ := Option.map_eq_some'.mp h
  subst hst2
  unfold Db.create_bucket at hdb2
  by_cases hdup : (treeGet st.db.bucket_name_to_bucket B).isSome = true
  · rw [if_pos hdup] at hdb2
    exact Option.noConfusion hdb2
  · rw [if_neg hdup] at hdb2
    obtain ⟨ub, _, hdb2'⟩ := Option.map_eq_some'.mp hdb2
    have hbt : db2.bucket_name_to_bucket
        = treeInsert st.db.bucket_name_to_bucket B
            { name := B, owner_id := owner, object_count := 0, size := 0,
              creation_date := st.time } := by
      rw [← hdb2']
    have hget : treeGet db2.bucket_name_to_bucket B
        = some { name := B, owner_id := owner, object_count := 0, size := 0,
                 creation_date := st.time } := by
      rw [hbt]
      exact treeGet_treeInsert_self _ _ _
    unfold Db.create_bucket
    rw [hget]
    simp

/-- C5 witness: the amended theorem applied to the seeded first creation of
bucket `buck`. -/
theorem c5_amended_witness :
    exState1.create_bucket "mehdy" "buck" = some exStateUB
      ∧ exStateUB.create_bucket "mehdy" "buck" = none :=
  ⟨by decide,
    c5_amended_duplicate_create_bucket_panics exState1 exStateUB "mehdy" "mehdy" "buck"
      (by decide)⟩

/-! Claim C7. -/

/-- C7: a request with a non-empty, well-formed Authorization header whose
signature does not verify against the resolved user's secret key gets a
bare 401 response with empty body, the state is returned unchanged, and no
storage operation runs (in particular nothing is created in the catalog or
the filesystem). -/
theorem c7_bad_signature_401
    (hmac : Bytes → Bytes → Bytes) (sha256 md5 : Bytes → Bytes)
    (st : Storage) (req : HttpRequest) (auth : Auth) (u : User)
    (hauth : Auth.parse (App.get_auth_header req) = some auth)
    (huser : st.find_user auth.access_key = some u)
    (hsig : App.check_signature hmac sha256 u auth req = some false) :
    App.handle hmac sha256 md5 st req = some (st, mkResponse 401 [] []) := by
  have hne := parse_some_ne_empty _ _ hauth
  simp only [App.handle, hauth, Option.bind_eq_bind, Option.some_bind, huser, hne,
    if_true, hsig, Bool.not_false]

/-- C7 witness: the `PUT /buck/hello` with the flipped signature against
the seeded store: 401, empty body, state unchanged. -/
theorem c7_witness :
    Auth.parse (App.get_auth_header exBadSigReq) = some exBadAuth
      ∧ exStateUB.find_user exBadAuth.access_key = some exUser
      ∧ App.check_signature exHmac exSha256 exUser exBadAuth exBadSigReq = some false
      ∧ App.handle exHmac exSha256 exMd5 exStateUB exBadSigReq
          = some (exStateUB, mkResponse 401 [] []) :=
  ⟨by decide, by decide, by decide,
    c7_bad_signature_401 exHmac exSha256 exMd5 exStateUB exBadSigReq exBadAuth exUser
      (by decide) (by decide) (by decide)⟩

/-! Claim C9, with its helper lemmas. -/

/-- Rust `splitn(2, '/')` yields one chunk or two. -/
theorem splitnTwoSlash_cases (cs : List Char) :
    (∃ a, splitnTwoSlash cs = [a]) ∨ (∃ a b, splitnTwoSlash cs = [a, b]) := by
  unfold splitnTwoSlash
  cases h : splitFirstSlash cs with
  | none => exact Or.inl ⟨cs, rfl⟩
  | some p => exact Or.inr ⟨p.1, p.2, rfl⟩

/-- Match agreement, no segments: both sides fall back to ListBuckets. -/
theorem operationOf_spec_nil (method : String) :
    operationOf method none none = specTableOf method [] := by
  unfold operationOf specTableOf
  split <;> split <;> simp_all

/-- Match agreement, one segment. -/
theorem operationOf_spec_one (method b : String) :
    operationOf method (some b) none = specTableOf method [b] := by
  unfold operationOf specTableOf
  split <;> split <;> simp_all

/-- Match agreement, two segments. -/
theorem operationOf_spec_two (method b k : String) :
    operationOf method (some b) (some k) = specTableOf method [b, k] := by
  unfold operationOf specTableOf
  split <;> split <;> simp_all

/-- C9: on every request path with a leading slash, the classifier agrees
with the spec's dispatch table: strip the slash, split into at most two
non-empty segments, map GET with no segments to ListBuckets, GET/PUT/DELETE
with one segment to ListObjects/CreateBucket/DeleteBucket, GET/PUT/DELETE
with two segments to GetObject/PutObject/DeleteObject, and everything else
(including the bare path "/") to ListBuckets. -/
theorem c9_detect_operation_matches_table (method : String) (rest : List Char) :
    App.detect_operation method (String.mk ('/' :: rest))
      = some (classifySpec method (String.mk ('/' :: rest))) := by
  simp only [App.detect_operation, classifySpec, List.drop_succ_cons, List.drop_nil,
    List.drop_zero, if_true]
  rcases splitnTwoSlash_cases rest with ⟨a, ha⟩ | ⟨a, b, hab⟩
  · rw [ha]
    by_cases hae : a.isEmpty = true
    · simp [List.filter_cons, hae, operationOf_spec_nil]
    · have hae' : (!a.isEmpty) = true := by simp [hae]
      simp [List.filter_cons, hae', operationOf_spec_one]
  · rw [hab]
    by_cases hae : a.isEmpty = true
    · by_cases hbe : b.isEmpty = true
      · simp [List.filter_cons, hae, hbe, operationOf_spec_nil]
      · have hbe' : (!b.isEmpty) = true := by simp [hbe]
        simp [List.filter_cons, hae, hbe', operationOf_spec_one]
    · have hae' : (!a.isEmpty) = true := by simp [hae]
      by_cases hbe : b.isEmpty = true
      · simp [List.filter_cons, hae', hbe, operationOf_spec_one]
      · have hbe' : (!b.isEmpty) = true := by simp [hbe]
        simp [List.filter_cons, hae', hbe', operationOf_spec_two]

end Anbar
